import Mathlib

/-!
Verification development for the interest-rate Telegram bot
(repository Kenblair1226/interest_bot).

This file gives a shallow embedding of the aggregation, change-detection,
filtering and formatting pipeline of src/main.go, and proves or refutes the
frozen specification claims against it.

Modelling conventions:
* Go float64 rate values are modelled as rationals.
* Go maps used as lookup tables are modelled as association lists
  (for static configuration) or as functions to Option (for the nested
  previous-rates table); a missing key yields none, matching the
  two-result Go map read.
* Go time.Time is modelled as Option of natural seconds, none standing for
  the zero time (time.Time.IsZero).
* The range order of a Go map is unspecified by the language, so renderers
  that iterate over a map take the key enumeration order as an explicit
  parameter; any permutation of the keys is a possible execution.
* sort.Slice and sort.Strings are modelled by insertion sort with an
  explicit boolean comparator; the Go comparators compare strings
  byte-wise, which agrees with code-point order on UTF-8 data.
-/

namespace InterestBot

/-- The Rate record of types.go (variant with a category field):
source, token, borrow rate, lending rate, and a CEX/DEX category tag. -/
structure Rate where
  source : String
  token : String
  borrowRate : ℚ
  lendingRate : ℚ
  category : String
deriving DecidableEq, Repr

/-- Global change threshold of main.go: rateChangeThreshold = 5.0. -/
def rateChangeThreshold : ℚ := 5

/-- Global cache TTL of main.go: cacheDuration = 5 minutes, in seconds. -/
def cacheDuration : ℕ := 300

/-- Global threshold table of main.go: lendingThresholds. -/
def lendingThresholds : List (String × ℚ) :=
  [("USDC", 30), ("TIA", 30), ("USDT", 30), ("FDUSD", 30)]

/-- Two-result Go map read threshold, exists := lendingThresholds[token]. -/
def lookupThreshold (token : String) : Option ℚ :=
  lendingThresholds.lookup token

/-- One-result Go map read lendingThresholds[token], zero value on a missing
key (used by the formatting code). -/
def threshD (token : String) : ℚ :=
  (lookupThreshold token).getD 0

/-- convertAPRtoAPY of main.go:
APY = ((1 + (apr/100)/compounds)^compounds - 1) * 100. -/
def convertAPRtoAPY (apr : ℚ) (compounds : ℕ) : ℚ :=
  let aprDecimal := apr / 100
  let apy := (1 + aprDecimal / (compounds : ℚ)) ^ compounds - 1
  apy * 100

/-- The per-rate normalization step inside fetchRates of main.go: rates from
the Neptune and Injera sources have both rates converted from APR to APY
with daily compounding (365); all other sources pass through unchanged. -/
def normalizeRate (r : Rate) : Rate :=
  if r.source = "Neptune" ∨ r.source = "Injera" then
    { r with
      lendingRate := convertAPRtoAPY r.lendingRate 365
      borrowRate := convertAPRtoAPY r.borrowRate 365 }
  else r

/-- hasSignificantChange of main.go: true when the old lending rate is zero
(first time seeing this rate), else true iff the absolute percent change of
the lending rate reaches rateChangeThreshold. -/
def hasSignificantChange (oldRate newRate : Rate) : Bool :=
  if oldRate.lendingRate = 0 then
    true
  else
    let percentChange := ((newRate.lendingRate - oldRate.lendingRate) / oldRate.lendingRate) * 100
    decide (|percentChange| ≥ rateChangeThreshold)

/-- The combined change test used by cronFetchRates of main.go:
prevRate, hasPrevious := previousRates[token][source]; notify when
!hasPrevious || hasSignificantChange(prevRate, rate). This is the
shouldNotify contract of the specification (section 4.4). -/
def shouldNotify (prevRate : Option Rate) (rate : Rate) : Bool :=
  match prevRate with
  | none => true
  | some p => hasSignificantChange p rate

/-- The previous-rates table previousRates of main.go: token, then source,
to the last seen rate. A function to Option models the nested Go map. -/
def PrevTable : Type := String → String → Option Rate

/-- One assignment previousRates[rate.Token][rate.Source] = rate
(the inner-map allocation of the Go code is absorbed by the function
update). -/
def assignPrev (acc : PrevTable) (r : Rate) : PrevTable :=
  fun t s => if t = r.token ∧ s = r.source then some r else acc t s

/-- updatePreviousRates of main.go: assign every fetched rate in order. -/
def updatePreviousRates (prev : PrevTable) (rates : List Rate) : PrevTable :=
  rates.foldl assignPrev prev

/-- The cache state of main.go: the global latestRates slice plus
lastFetchTime; none models the zero time.Time before any fetch. -/
structure FetchState where
  latestRates : List Rate
  lastFetchTime : Option ℕ
deriving Repr

/-- The allRates accumulation loop of fetchRates in main.go: each adapter
result is either an error (contributing nothing but an error entry) or a
list of rates, normalized and appended in order. -/
def collectRates : List (Option (List Rate)) → List Rate
  | [] => []
  | none :: rest => collectRates rest
  | some rs :: rest => rs.map normalizeRate ++ collectRates rest

/-- The length of the errors slice of fetchRates in main.go. -/
def countErrors (results : List (Option (List Rate))) : ℕ :=
  (results.filter (fun r => r.isNone)).length

/-- fetchRates of main.go, with the adapter call results passed in as data:
if no rates were collected and at least one adapter errored, fail and leave
the cache untouched; otherwise replace the cache (updateLatestRates) with
the collected rates at the current time and succeed. -/
def fetchRates (st : FetchState) (now : ℕ) (results : List (Option (List Rate))) :
    Option (List Rate) × FetchState :=
  let allRates := collectRates results
  if allRates.length = 0 ∧ 0 < countErrors results then
    (none, st)
  else
    (some allRates, { latestRates := allRates, lastFetchTime := some now })

/-- isCacheValid of main.go: !lastFetchTime.IsZero() && time.Since(lastFetchTime)
< cacheDuration. Truncated subtraction mirrors a nonpositive time.Since
being below the TTL. -/
def isCacheValid (st : FetchState) (now : ℕ) : Bool :=
  match st.lastFetchTime with
  | none => false
  | some t => decide (now - t < cacheDuration)

/-- getRatesWithCache of main.go: serve the cached snapshot while the cache
is valid, otherwise perform a fresh fetchRates. -/
def getRatesWithCache (st : FetchState) (now : ℕ) (results : List (Option (List Rate))) :
    Option (List Rate) × FetchState :=
  if isCacheValid st now then (some st.latestRates, st) else fetchRates st now results

/-- The per-rate filter of cronFetchRates in main.go: the token must be in
lendingThresholds, the lending rate must reach the threshold, and the rate
must have no previous observation or a significant change. -/
def candidateFlag (prev : PrevTable) (r : Rate) : Bool :=
  match lookupThreshold r.token with
  | none => false
  | some threshold =>
      if r.lendingRate ≥ threshold then shouldNotify (prev r.token r.source) r else false

/-- The filteredRates accumulation of cronFetchRates in main.go. -/
def filteredRates (prev : PrevTable) (rates : List Rate) : List Rate :=
  rates.filter (candidateFlag prev)

/-- Byte-wise lexicographic string comparison on the code-point lists;
this is the order used by the sort.Slice and sort.Strings comparators of
main.go (byte-wise comparison of UTF-8 strings agrees with code-point
order). -/
def strLeList : List Char → List Char → Bool
  | [], _ => true
  | _ :: _, [] => false
  | c :: cs, d :: ds =>
      if c.toNat < d.toNat then true
      else if d.toNat < c.toNat then false
      else strLeList cs ds

/-- String comparison lifted to String. -/
def strLe (a b : String) : Bool :=
  strLeList a.data b.data

/-- Insert into a sorted list, keeping the comparator order. -/
def insertBy (le : α → α → Bool) (a : α) : List α → List α
  | [] => [a]
  | b :: bs => if le a b then a :: b :: bs else b :: insertBy le a bs

/-- Insertion sort; models the sort.Slice and sort.Strings calls of
main.go (any sorted rearrangement is a faithful model of the Go sort). -/
def sortBy (le : α → α → Bool) : List α → List α
  | [] => []
  | a :: as => insertBy le a (sortBy le as)

/-- The comparator of the sort.Slice calls of main.go: order rates by
source name. -/
def rateLe (a b : Rate) : Bool :=
  strLe a.source b.source

/-- The %.0f verb of fmt.Sprintf: round to the nearest integer, ties to
even, and print the integer. Written on the numerator and denominator of
the (normalized) rational so that the kernel can evaluate it. -/
def fmtF0 (q : ℚ) : String :=
  let n := q.num
  let d : Int := (q.den : Int)
  let f := Int.fdiv n d
  let r2 := 2 * (n - f * d)
  let v : Int :=
    if r2 < d then f
    else if d < r2 then f + 1
    else if f % 2 = 0 then f else f + 1
  toString v

/-- formatRate of main.go: one bullet line per source, with a fire marker
at twice the threshold, bold at the threshold, plain below it. -/
def formatRate (rate : Rate) (threshold : ℚ) : String :=
  let lendingRateStr :=
    if rate.lendingRate ≥ threshold * 2 then "🔥" ++ fmtF0 rate.lendingRate ++ "%"
    else if rate.lendingRate ≥ threshold then "*" ++ fmtF0 rate.lendingRate ++ "%*"
    else fmtF0 rate.lendingRate ++ "%"
  let borrowRateStr := fmtF0 rate.borrowRate ++ "%"
  "  • " ++ rate.source ++ ": L: " ++ lendingRateStr ++ " | B: " ++ borrowRateStr

/-- The tokensWithHighRates membership test of cronFetchRates in main.go. -/
def isHighToken (filtered : List Rate) (token : String) : Bool :=
  filtered.any (fun r => r.token = token)

/-- The ratesByToken map built by cronFetchRates in main.go: for a token
with a flagged rate, all fetched rates of that token in fetch order;
other tokens are absent (the empty list models the missing key). -/
def ratesByTokenMap (rates filtered : List Rate) : String → List Rate :=
  fun token => if isHighToken filtered token then rates.filter (fun r => r.token = token) else []

/-- One token block of the notification message of cronFetchRates in
main.go: header line, then the rate lines sorted by source, then a blank
line. The per-rate CEX-preference loop of the source (lines 286 to 291)
only executes a continue statement and changes nothing, so the block does
not depend on the showCEX argument; the argument is kept because the
source reads the preference here. -/
def cronTokenBlock (byToken : String → List Rate) (showCEX : Bool) (token : String) : String :=
  let rates := byToken token
  let _ := showCEX
  let sorted := sortBy rateLe rates
  "🪙 *" ++ token ++ "*\n"
    ++ String.join (sorted.map (fun r => formatRate r (threshD token) ++ "\n"))
    ++ "\n"

/-- The whole notification text built for one recipient by cronFetchRates
in main.go. The tokenOrder argument is the enumeration order of the
tokensWithHighRates map; Go leaves the range order of a map unspecified,
so every permutation of the keys is a possible execution. -/
def cronMessage (tokenOrder : List String) (byToken : String → List Rate)
    (showCEX : Bool) : String :=
  String.join (tokenOrder.map (cronTokenBlock byToken showCEX))

/-- The combined mutable state touched by one timer cycle. -/
structure CycleState where
  fetchSt : FetchState
  prev : PrevTable

/-- One timer cycle, cronFetchRates of main.go: fetch (failing cycles
return early), filter by threshold and significant change, update the
previous-rates table for every fetched rate, and when any rate was
flagged, render one message per subscriber under that subscriber's CEX
preference. Returns the new state and the (chat id, text) messages sent. -/
def cronCycle (st : CycleState) (now : ℕ) (results : List (Option (List Rate)))
    (chatIDs : List Int) (prefs : Int → Bool) (tokenOrder : List String) :
    CycleState × List (Int × String) :=
  match fetchRates st.fetchSt now results with
  | (none, fs) => (⟨fs, st.prev⟩, [])
  | (some rates, fs) =>
      let filtered := filteredRates st.prev rates
      let prevNew := updatePreviousRates st.prev rates
      if 0 < filtered.length then
        (⟨fs, prevNew⟩,
          chatIDs.map (fun c => (c, cronMessage tokenOrder (ratesByTokenMap rates filtered) (prefs c))))
      else
        (⟨fs, prevNew⟩, [])

/-- The insertion-ordered ratesByToken association list built by the show-all
branch of the rate command in main.go: append each rate to the entry of its
token, creating the entry at the end on first sight. -/
def addToToken (acc : List (String × List Rate)) (r : Rate) : List (String × List Rate) :=
  match acc with
  | [] => [(r.token, [r])]
  | (t, rs) :: rest =>
      if t = r.token then (t, rs ++ [r]) :: rest else (t, rs) :: addToToken rest r

/-- The ratesByToken map of the show-all branch, as an association list in
key insertion order (first appearance order of the tokens). -/
def buildRatesByToken (allRates : List Rate) : List (String × List Rate) :=
  allRates.foldl addToToken []

/-- Association list read with the zero-value default of a Go map. -/
def lookupTokenRates (byToken : List (String × List Rate)) (token : String) : List Rate :=
  (byToken.lookup token).getD []

/-- The sorted block structure of the show-all branch of the rate command
in main.go: tokens sorted with sort.Strings, and within each token the
rates sorted by source with sort.Slice. -/
def rateAllBlocks (allRates : List Rate) : List (String × List Rate) :=
  let byToken := buildRatesByToken allRates
  let tokens := sortBy strLe (byToken.map Prod.fst)
  tokens.map (fun token => (token, sortBy rateLe (lookupTokenRates byToken token)))

/-- The full text of the show-all branch of the rate command in main.go. -/
def rateAllMessage (allRates : List Rate) : String :=
  "*Current Rates for All Tokens*\n"
    ++ String.join ((rateAllBlocks allRates).map (fun b =>
        "🪙 *" ++ b.1 ++ "*\n"
          ++ String.join (b.2.map (fun r => formatRate r (threshD b.1) ++ "\n"))
          ++ "\n"))

/-- The command help table commandHelp of main.go, in source order. -/
def commandHelp : List (String × String) :=
  [("/start", "Subscribe to rate notifications"),
   ("/stop", "Unsubscribe from rate notifications"),
   ("/rate", "Show current rates for all tokens\nUsage: /rate [token]\nExample: /rate USDT"),
   ("/help", "Show this help message"),
   ("/cex", "Toggle visibility of CEX (Centralized Exchange) rates")]

/-- getHelpMessage of main.go: header plus one block per command, commands
sorted for consistent ordering. -/
def getHelpMessage : String :=
  "*Available Commands*\n\n"
    ++ String.join ((sortBy strLe (commandHelp.map Prod.fst)).map (fun cmd =>
        "*" ++ cmd ++ "*\n" ++ ((commandHelp.lookup cmd).getD "") ++ "\n\n"))

/-- List version of strings.HasPrefix. -/
def listStarts : List Char → List Char → Bool
  | [], _ => true
  | _ :: _, [] => false
  | c :: cs, d :: ds => c == d && listStarts cs ds

/-- strings.HasPrefix of the Go standard library: strStarts p s is true
when s starts with p. -/
def strStarts (p s : String) : Bool :=
  listStarts p.data s.data

/-- The branches of the message dispatch switch of main.go. -/
inductive Cmd where
  | start
  | stop
  | rate
  | help
  | cex
  | unknown
deriving DecidableEq, Repr

/-- The branch selection of the dispatch switch in main.go, in source
order: exact matches for /start, /stop, /help and /cex, a HasPrefix match
for /rate, and the default branch otherwise. -/
def dispatchCmd (text : String) : Cmd :=
  if text = "/start" then Cmd.start
  else if text = "/stop" then Cmd.stop
  else if strStarts "/rate" text then Cmd.rate
  else if text = "/help" then Cmd.help
  else if text = "/cex" then Cmd.cex
  else Cmd.unknown

/-- Whether the selected branch of the dispatch switch in main.go sends a
reply message to the sender. Every recognized command branch sends a reply
on every path (either its result or an apology message); the default
branch (main.go lines 510 to 514) only writes a log line and sends
nothing. -/
def dispatchSendsReply (text : String) : Bool :=
  match dispatchCmd text with
  | Cmd.unknown => false
  | _ => true

/-! Sample data used by witness theorems. -/

/-- A TIA rate from OKX at 35 percent lending. -/
def tia35 : Rate := ⟨"OKX", "TIA", 0, 35, "CEX"⟩

/-- A TIA rate from OKX at 20 percent lending. -/
def tia20 : Rate := ⟨"OKX", "TIA", 0, 20, "CEX"⟩

/-- A TIA rate from OKX at 10 percent lending (below threshold). -/
def tia10 : Rate := ⟨"OKX", "TIA", 0, 10, "CEX"⟩

/-- A TIA rate from OKX at zero lending. -/
def tia0 : Rate := ⟨"OKX", "TIA", 0, 0, "CEX"⟩

/-- A USDC rate from Binance, category CEX, at 35 percent lending. -/
def usdcBinance : Rate := ⟨"Binance", "USDC", 0, 35, "CEX"⟩

/-- A USDT rate from Bybit at 40 percent lending. -/
def usdt40 : Rate := ⟨"Bybit", "USDT", 0, 40, "CEX"⟩

/-- The empty previous-rates table of process start. -/
def emptyPrev : PrevTable := fun _ _ => none

/-! Helper lemmas. -/

/-- A cycle in which every adapter errored collects no rates. -/
lemma collectRates_eq_nil (results : List (Option (List Rate)))
    (h : ∀ x ∈ results, x = none) : collectRates results = [] := by
  induction results with
  | nil => rfl
  | cons hd tl ih =>
      have hhd : hd = none := h hd (List.mem_cons_self hd tl)
      subst hhd
      exact ih (fun x hx => h x (List.mem_cons_of_mem _ hx))

/-- A nonempty cycle in which every adapter errored has a positive error
count. -/
lemma countErrors_pos (results : List (Option (List Rate)))
    (hne : results ≠ []) (h : ∀ x ∈ results, x = none) : 0 < countErrors results := by
  cases results with
  | nil => exact absurd rfl hne
  | cons hd tl =>
      have hhd : hd = none := h hd (List.mem_cons_self hd tl)
      subst hhd
      simp [countErrors]

/-- A successful adapter with a nonempty rate list makes the collected
rates nonempty. -/
lemma collectRates_ne_nil (results : List (Option (List Rate))) (rs : List Rate)
    (hmem : some rs ∈ results) (hne : rs ≠ []) : collectRates results ≠ [] := by
  induction results with
  | nil => cases hmem
  | cons hd tl ih =>
      rcases List.mem_cons.mp hmem with heq | htl
      · subst heq
        cases rs with
        | nil => exact absurd rfl hne
        | cons r rest => simp [collectRates]
      · cases hd with
        | none => exact ih htl
        | some xs =>
            intro hcontra
            rcases List.append_eq_nil.mp hcontra with ⟨-, h2⟩
            exact ih htl h2

/-- Every entry of the threshold configuration carries the value 30. -/
lemma lookupThreshold_eq_30 (t : String) (th : ℚ) (h : lookupThreshold t = some th) :
    th = 30 := by
  unfold lookupThreshold lendingThresholds at h
  simp only [List.lookup] at h
  repeat' split at h
  all_goals simp_all

/-! Claims. -/

/-- Claim C3: shouldNotify returns true when no previous observation
exists or when the previous lending rate is zero; otherwise it returns
true exactly when the absolute percent change of the lending rate reaches
the change threshold, whose default is 5. -/
theorem shouldNotify_spec (p c : Rate) :
    shouldNotify none c = true
    ∧ rateChangeThreshold = 5
    ∧ (p.lendingRate = 0 → shouldNotify (some p) c = true)
    ∧ (p.lendingRate ≠ 0 →
        (shouldNotify (some p) c = true ↔
          rateChangeThreshold ≤ |((c.lendingRate - p.lendingRate) / p.lendingRate) * 100|)) := by
  refine ⟨rfl, rfl, ?_, ?_⟩
  · intro h
    simp [shouldNotify, hasSignificantChange, h]
  · intro h
    simp [shouldNotify, hasSignificantChange, h, ge_iff_le]

/-- Witness for C3 at concrete rates: a first observation notifies, a
zero previous rate notifies, and a move from 20 to 35 (a 75 percent
change) notifies. -/
theorem shouldNotify_spec_witness :
    shouldNotify none tia35 = true
    ∧ shouldNotify (some tia0) tia35 = true
    ∧ shouldNotify (some tia20) tia35 = true := by
  obtain ⟨h1, -, h2, -⟩ := shouldNotify_spec tia0 tia35
  obtain ⟨-, -, -, h3⟩ := shouldNotify_spec tia20 tia35
  refine ⟨h1, h2 rfl, ?_⟩
  rw [h3 (by norm_num [tia20])]
  have habs : ((tia35.lendingRate - tia20.lendingRate) / tia20.lendingRate) * 100 = 75 := by
    norm_num [tia35, tia20]
  rw [habs, abs_of_nonneg (by norm_num)]
  norm_num [rateChangeThreshold]

/-- Claim C10: before any successful fetch the cache timestamp is the
zero time, the cache is reported invalid regardless of the clock, and a
query goes through a fresh fetch instead of serving the cache. -/
theorem cold_cache_always_fetches (st : FetchState) (now : ℕ)
    (results : List (Option (List Rate))) (h : st.lastFetchTime = none) :
    isCacheValid st now = false
    ∧ getRatesWithCache st now results = fetchRates st now results := by
  have hv : isCacheValid st now = false := by simp [isCacheValid, h]
  exact ⟨hv, by simp [getRatesWithCache, hv]⟩

/-- Witness for C10 at the start state: the cold cache is invalid and the
first query performs a fetch. -/
theorem cold_cache_always_fetches_witness :
    isCacheValid ⟨[], none⟩ 0 = false
    ∧ getRatesWithCache ⟨[], none⟩ 0 [some [tia35]]
        = fetchRates ⟨[], none⟩ 0 [some [tia35]] :=
  cold_cache_always_fetches ⟨[], none⟩ 0 [some [tia35]] rfl

/-- Claim C4: when every adapter fails in a cycle, the fetch reports
failure with the cache state exactly as before, and the timer cycle sends
no message to any subscriber and leaves the whole state unchanged. -/
theorem total_failure_preserves_state (st : CycleState) (now : ℕ)
    (results : List (Option (List Rate))) (chatIDs : List Int) (prefs : Int → Bool)
    (tokenOrder : List String)
    (hne : results ≠ []) (hall : ∀ x ∈ results, x = none) :
    fetchRates st.fetchSt now results = (none, st.fetchSt)
    ∧ cronCycle st now results chatIDs prefs tokenOrder = (st, []) := by
  have hc : collectRates results = [] := collectRates_eq_nil results hall
  have he : 0 < countErrors results := countErrors_pos results hne hall
  have hf : fetchRates st.fetchSt now results = (none, st.fetchSt) := by
    unfold fetchRates
    rw [if_pos ⟨by rw [hc]; rfl, he⟩]
  refine ⟨hf, ?_⟩
  unfold cronCycle
  rw [hf]

/-- Witness for C4: five failing adapters leave a concrete state
untouched and produce no messages. -/
theorem total_failure_preserves_state_witness :
    fetchRates ⟨[tia20], some 50⟩ 400 [none, none, none, none, none]
      = (none, ⟨[tia20], some 50⟩)
    ∧ cronCycle ⟨⟨[tia20], some 50⟩, emptyPrev⟩ 400 [none, none, none, none, none]
        [1] (fun _ => true) [] = (⟨⟨[tia20], some 50⟩, emptyPrev⟩, []) :=
  total_failure_preserves_state ⟨⟨[tia20], some 50⟩, emptyPrev⟩ 400
    [none, none, none, none, none] [1] (fun _ => true) []
    (by decide) (by decide)

/-- Claim C2 counterexample: with one adapter succeeding (with an empty
rate list) and one failing, at least one adapter succeeded, yet the
aggregate fetch reports an error — refuting the claim that an error is
returned only when every adapter failed, and that any adapter success
yields aggregate success. -/
theorem fetchRates_partial_success_reports_error :
    (fetchRates ⟨[], none⟩ 7 [some [], none]).1 = none
    ∧ [some ([] : List Rate), none].any (fun r => r.isSome) = true := by
  exact ⟨rfl, rfl⟩

/-- Claim C2 as amended: the aggregate fetch fails exactly when it
collected no rates and at least one adapter errored; in every other case
(in particular whenever some adapter succeeded with a nonempty list, and
whenever no adapter errored) it succeeds with the concatenation, in
adapter order, of the normalized rates of the succeeding adapters. -/
theorem fetchRates_error_iff (st : FetchState) (now : ℕ)
    (results : List (Option (List Rate))) :
    ((fetchRates st now results).1 = none ↔
      collectRates results = [] ∧ 0 < countErrors results)
    ∧ (∀ rs, some rs ∈ results → rs ≠ [] →
        (fetchRates st now results).1 = some (collectRates results))
    ∧ (countErrors results = 0 →
        (fetchRates st now results).1 = some (collectRates results)) := by
  refine ⟨?_, ?_, ?_⟩
  · unfold fetchRates
    by_cases h : (collectRates results).length = 0 ∧ 0 < countErrors results
    · rw [if_pos h]
      simp only [true_iff]
      exact ⟨List.length_eq_zero.mp h.1, h.2⟩
    · rw [if_neg h]
      simp only [reduceCtorEq, false_iff]
      rintro ⟨h1, h2⟩
      exact h ⟨by rw [h1]; rfl, h2⟩
  · intro rs hmem hne
    unfold fetchRates
    rw [if_neg]
    rintro ⟨h1, -⟩
    exact collectRates_ne_nil results rs hmem hne (List.length_eq_zero.mp h1)
  · intro hz
    unfold fetchRates
    rw [if_neg]
    rintro ⟨-, h2⟩
    rw [hz] at h2
    exact Nat.lt_irrefl 0 h2

/-- Witness for C2 as amended: one failing adapter plus one succeeding
adapter with a nonempty list yields success with the collected rates. -/
theorem fetchRates_error_iff_witness :
    (fetchRates ⟨[], none⟩ 3 [none, some [tia35]]).1
      = some (collectRates [none, some [tia35]]) :=
  (fetchRates_error_iff ⟨[], none⟩ 3 [none, some [tia35]]).2.1
    [tia35] (by decide) (by decide)

/-- Claim C5: a fetched rate is flagged in a timer cycle exactly when its
token has a configured threshold, its lending rate reaches that threshold,
and the change detector fires (no previous observation, or a significant
change); a rate whose token is absent from the configuration is never
flagged, whatever its value. -/
theorem flagged_iff_threshold_and_change (prev : PrevTable) (rates : List Rate) (r : Rate) :
    (r ∈ rates →
      (r ∈ filteredRates prev rates ↔
        ∃ th, lookupThreshold r.token = some th ∧ th ≤ r.lendingRate
          ∧ shouldNotify (prev r.token r.source) r = true))
    ∧ (lookupThreshold r.token = none → r ∉ filteredRates prev rates) := by
  constructor
  · intro hr
    rw [filteredRates, List.mem_filter]
    constructor
    · rintro ⟨-, hflag⟩
      unfold candidateFlag at hflag
      cases hlk : lookupThreshold r.token with
      | none => rw [hlk] at hflag; exact absurd hflag (by simp)
      | some th =>
          rw [hlk] at hflag
          replace hflag :
              (if r.lendingRate ≥ th then shouldNotify (prev r.token r.source) r else false)
                = true := hflag
          by_cases hge : r.lendingRate ≥ th
          · rw [if_pos hge] at hflag
            exact ⟨th, rfl, hge, hflag⟩
          · rw [if_neg hge] at hflag
            exact absurd hflag (by simp)
    · rintro ⟨th, hlk, hge, hsn⟩
      refine ⟨hr, ?_⟩
      unfold candidateFlag
      rw [hlk]
      show (if r.lendingRate ≥ th then shouldNotify (prev r.token r.source) r else false) = true
      rw [if_pos hge]
      exact hsn
  · intro hlk hmem
    rw [filteredRates, List.mem_filter] at hmem
    obtain ⟨-, hflag⟩ := hmem
    unfold candidateFlag at hflag
    rw [hlk] at hflag
    exact absurd hflag (by simp)

/-- Witness for C5: a first-seen TIA rate at 35 (threshold 30) is
flagged, and a DOGE rate is never flagged because DOGE has no configured
threshold. -/
theorem flagged_iff_threshold_and_change_witness :
    tia35 ∈ filteredRates emptyPrev [tia35]
    ∧ (⟨"OKX", "DOGE", 0, 99, "CEX"⟩ : Rate) ∉
        filteredRates emptyPrev [⟨"OKX", "DOGE", 0, 99, "CEX"⟩] := by
  constructor
  · exact ((flagged_iff_threshold_and_change emptyPrev [tia35] tia35).1
      (by decide)).mpr ⟨30, rfl, by decide, rfl⟩
  · exact (flagged_iff_threshold_and_change emptyPrev
      [⟨"OKX", "DOGE", 0, 99, "CEX"⟩] ⟨"OKX", "DOGE", 0, 99, "CEX"⟩).2 rfl

/-- Updating with rates none of which carry the key (t, s) leaves the
entry of (t, s) unchanged. -/
lemma updatePreviousRates_no_key (prev : PrevTable) (rates : List Rate) (t s : String)
    (h : ∀ x ∈ rates, ¬(t = x.token ∧ s = x.source)) :
    updatePreviousRates prev rates t s = prev t s := by
  induction rates generalizing prev with
  | nil => rfl
  | cons hd tl ih =>
      have step : updatePreviousRates prev (hd :: tl) = updatePreviousRates (assignPrev prev hd) tl := rfl
      rw [step, ih (assignPrev prev hd) (fun x hx => h x (List.mem_cons_of_mem _ hx))]
      unfold assignPrev
      rw [if_neg (h hd (List.mem_cons_self hd tl))]

/-- Claim C6: after a cycle updates the table, every fetched rate is the
entry stored under its (token, source) key — whether or not it was
flagged — provided the cycle carries one observation per key, which is
the stated data-model invariant; and a rate identical to the stored
previous observation is never flagged again (its delta is zero), even
when it is still above threshold. -/
theorem previousRates_updated_every_cycle :
    (∀ (prev : PrevTable) (rates : List Rate),
      (rates.map (fun r => (r.token, r.source))).Nodup →
      ∀ r ∈ rates, updatePreviousRates prev rates r.token r.source = some r)
    ∧ (∀ (prev : PrevTable) (rates : List Rate) (r : Rate),
        prev r.token r.source = some r → r ∉ filteredRates prev rates) := by
  constructor
  · intro prev rates hnd r hr
    induction rates generalizing prev with
    | nil => cases hr
    | cons hd tl ih =>
        have step : updatePreviousRates prev (hd :: tl)
            = updatePreviousRates (assignPrev prev hd) tl := rfl
        rcases List.mem_cons.mp hr with heq | htl
        · subst heq
          rw [step, updatePreviousRates_no_key]
          · unfold assignPrev
            rw [if_pos ⟨rfl, rfl⟩]
          · intro x hx hcontra
            have hkey : (r.token, r.source) ∉ tl.map (fun y => (y.token, y.source)) :=
              (List.nodup_cons.mp hnd).1
            exact hkey (by
              rcases hcontra with ⟨h1, h2⟩
              exact List.mem_map.mpr ⟨x, hx, by rw [← h1, ← h2]⟩)
        · rw [step]
          exact ih (assignPrev prev hd) (List.nodup_cons.mp hnd).2 htl
  · intro prev rates r hprev hmem
    rw [filteredRates, List.mem_filter] at hmem
    obtain ⟨-, hflag⟩ := hmem
    unfold candidateFlag at hflag
    cases hlk : lookupThreshold r.token with
    | none => rw [hlk] at hflag; exact absurd hflag (by simp)
    | some th =>
        rw [hlk] at hflag
        replace hflag :
            (if r.lendingRate ≥ th then shouldNotify (prev r.token r.source) r else false)
              = true := hflag
        have hth : th = 30 := lookupThreshold_eq_30 r.token th hlk
        by_cases hge : r.lendingRate ≥ th
        · rw [if_pos hge] at hflag
          rw [hprev] at hflag
          have hne : r.lendingRate ≠ 0 := by
            rw [hth] at hge
            intro h0
            rw [h0] at hge
            norm_num at hge
          unfold shouldNotify hasSignificantChange at hflag
          replace hflag :
              (if r.lendingRate = 0 then true
                else decide
                  (|((r.lendingRate - r.lendingRate) / r.lendingRate) * 100|
                    ≥ rateChangeThreshold)) = true := hflag
          rw [if_neg hne] at hflag
          have hzero : ((r.lendingRate - r.lendingRate) / r.lendingRate) * 100 = 0 := by
            rw [sub_self, zero_div, zero_mul]
          rw [hzero] at hflag
          simp only [abs_zero, ge_iff_le, decide_eq_true_eq] at hflag
          norm_num [rateChangeThreshold] at hflag
        · rw [if_neg hge] at hflag
          exact absurd hflag (by simp)

/-- Witness for C6: a cycle with the single rate TIA 35 stores it under
(TIA, OKX); a table already holding TIA 10 under its key never flags the
identical TIA 10 again. -/
theorem previousRates_updated_every_cycle_witness :
    updatePreviousRates emptyPrev [tia35] "TIA" "OKX" = some tia35
    ∧ tia10 ∉ filteredRates
        (fun t s => if t = "TIA" ∧ s = "OKX" then some tia10 else none) [tia10] := by
  constructor
  · exact previousRates_updated_every_cycle.1 emptyPrev [tia35] (by decide) tia35 (by decide)
  · exact previousRates_updated_every_cycle.2
      (fun t s => if t = "TIA" ∧ s = "OKX" then some tia10 else none) [tia10] tia10 rfl

/-- Claim C8 counterexample: the unrecognized input "hello" selects the
default branch of the dispatch switch, which sends no reply at all (the
help listing, which is a nonempty text, is not sent) — refuting the claim
that unknown text is answered with the help listing. -/
theorem unknown_text_gets_no_reply :
    dispatchCmd "hello" = Cmd.unknown
    ∧ dispatchSendsReply "hello" = false
    ∧ getHelpMessage ≠ "" := by
  refine ⟨rfl, rfl, ?_⟩
  decide

/-- Claim C8 as amended: for every incoming text that matches none of the
recognized commands, the bot stays silent — the default branch only logs
the text and sends nothing; the help listing is produced only by the
explicit help command. -/
theorem unknown_text_silent (text : String) (h : dispatchCmd text = Cmd.unknown) :
    dispatchSendsReply text = false := by
  unfold dispatchSendsReply
  rw [h]

/-- Witness for C8 as amended: the input "hello" is unrecognized and gets
no reply. -/
theorem unknown_text_silent_witness : dispatchSendsReply "hello" = false :=
  unknown_text_silent "hello" rfl

/-! Order lemmas for the string comparator and the insertion sort. -/

/-- The byte-wise string order is total. -/
lemma strLeList_total : ∀ xs ys : List Char, strLeList xs ys = true ∨ strLeList ys xs = true := by
  intro xs
  induction xs with
  | nil => intro ys; left; rfl
  | cons c cs ih =>
      intro ys
      cases ys with
      | nil => right; rfl
      | cons d ds =>
          by_cases h1 : c.toNat < d.toNat
          · left; simp [strLeList, h1]
          · by_cases h2 : d.toNat < c.toNat
            · right; simp [strLeList, h1, h2]
            · rcases ih ds with h | h
              · left; simp [strLeList, h1, h2, h]
              · right; simp [strLeList, h1, h2, h]

/-- The byte-wise string order is transitive. -/
lemma strLeList_trans : ∀ xs ys zs : List Char,
    strLeList xs ys = true → strLeList ys zs = true → strLeList xs zs = true := by
  intro xs
  induction xs with
  | nil => intro ys zs h1 h2; rfl
  | cons c cs ih =>
      intro ys zs h1 h2
      cases ys with
      | nil => simp [strLeList] at h1
      | cons d ds =>
          cases zs with
          | nil => simp [strLeList] at h2
          | cons e es =>
              simp only [strLeList] at h1 h2 ⊢
              by_cases hcd : c.toNat < d.toNat
              · by_cases hde : d.toNat < e.toNat
                · simp [Nat.lt_trans hcd hde]
                · by_cases hed : e.toNat < d.toNat
                  · simp [hde, hed] at h2
                  · have hde2 : d.toNat = e.toNat :=
                      Nat.le_antisymm (Nat.le_of_not_lt hed) (Nat.le_of_not_lt hde)
                    simp [hde2 ▸ hcd]
              · by_cases hdc : d.toNat < c.toNat
                · simp [hcd, hdc] at h1
                · have hcd2 : c.toNat = d.toNat :=
                    Nat.le_antisymm (Nat.le_of_not_lt hdc) (Nat.le_of_not_lt hcd)
                  have h1r : strLeList cs ds = true := by simpa [hcd, hdc] using h1
                  by_cases hde : d.toNat < e.toNat
                  · simp [hcd2 ▸ hde]
                  · by_cases hed : e.toNat < d.toNat
                    · simp [hde, hed] at h2
                    · have hde2 : d.toNat = e.toNat :=
                        Nat.le_antisymm (Nat.le_of_not_lt hed) (Nat.le_of_not_lt hde)
                      have h2r : strLeList ds es = true := by simpa [hde, hed] using h2
                      have hce : ¬ c.toNat < e.toNat := by omega
                      have hec : ¬ e.toNat < c.toNat := by omega
                      simp [hce, hec, ih ds es h1r h2r]

/-- Totality of strLe. -/
lemma strLe_total (a b : String) : strLe a b = true ∨ strLe b a = true :=
  strLeList_total a.data b.data

/-- Transitivity of strLe. -/
lemma strLe_trans (a b c : String) :
    strLe a b = true → strLe b c = true → strLe a c = true :=
  strLeList_trans a.data b.data c.data

/-- Membership in an insertion step. -/
lemma mem_insertBy {α : Type} (le : α → α → Bool) (a : α) :
    ∀ (l : List α) (x : α), x ∈ insertBy le a l ↔ x = a ∨ x ∈ l := by
  intro l
  induction l with
  | nil => intro x; simp [insertBy]
  | cons b bs ih =>
      intro x
      unfold insertBy
      by_cases h : le a b = true
      · rw [if_pos h]
        simp [List.mem_cons]
      · rw [if_neg h]
        simp [List.mem_cons, ih]
        tauto

/-- Inserting into a sorted list keeps it sorted. -/
lemma pairwise_insertBy {α : Type} (le : α → α → Bool)
    (htot : ∀ a b, le a b = true ∨ le b a = true)
    (htrans : ∀ a b c, le a b = true → le b c = true → le a c = true)
    (a : α) :
    ∀ l : List α, l.Pairwise (fun x y => le x y = true) →
      (insertBy le a l).Pairwise (fun x y => le x y = true) := by
  intro l
  induction l with
  | nil => intro _; simp [insertBy]
  | cons b bs ih =>
      intro hp
      rw [List.pairwise_cons] at hp
      obtain ⟨hb, hbs⟩ := hp
      unfold insertBy
      by_cases h : le a b = true
      · rw [if_pos h]
        rw [List.pairwise_cons]
        refine ⟨?_, List.pairwise_cons.mpr ⟨hb, hbs⟩⟩
        intro x hx
        rcases List.mem_cons.mp hx with heq | hxs
        · rw [heq]; exact h
        · exact htrans a b x h (hb x hxs)
      · rw [if_neg h]
        rw [List.pairwise_cons]
        refine ⟨?_, ih hbs⟩
        intro x hx
        rcases (mem_insertBy le a bs x).mp hx with heq | hxs
        · rw [heq]
          rcases htot a b with h1 | h1
          · exact absurd h1 h
          · exact h1
        · exact hb x hxs

/-- The insertion sort produces a list sorted under the comparator. -/
lemma sortBy_pairwise {α : Type} (le : α → α → Bool)
    (htot : ∀ a b, le a b = true ∨ le b a = true)
    (htrans : ∀ a b c, le a b = true → le b c = true → le a c = true) :
    ∀ l : List α, (sortBy le l).Pairwise (fun x y => le x y = true) := by
  intro l
  induction l with
  | nil => simp [sortBy]
  | cons a as ih => exact pairwise_insertBy le htot htrans a _ ih

/-- The middle emphasis tier of formatRate: at or above the threshold but
below twice the threshold, the lending figure is rendered in bold. -/
lemma formatRate_mid (r : Rate) (threshold : ℚ)
    (h1 : ¬ r.lendingRate ≥ threshold * 2) (h2 : r.lendingRate ≥ threshold) :
    formatRate r threshold =
      "  • " ++ r.source ++ ": L: " ++ ("*" ++ fmtF0 r.lendingRate ++ "%*")
        ++ " | B: " ++ (fmtF0 r.borrowRate ++ "%") := by
  unfold formatRate
  rw [if_neg h1, if_pos h2]

/-- The single-token ratesByToken map of the C1 scenario: the flagged
token USDC carrying one CEX rate from Binance. -/
def usdcByToken : String → List Rate :=
  fun t => if t = "USDC" then [usdcBinance] else []

/-- Claim C1 (code bug): the per-recipient CEX filter loop of
cronFetchRates only executes a continue statement, so the timer-cycle
message built for a subscriber with the CEX preference off is identical
to the one built with it on, and it still contains the line of the
CEX-category Binance rate. -/
theorem cron_message_ignores_cex_pref :
    (∀ (tokenOrder : List String) (byToken : String → List Rate),
      cronMessage tokenOrder byToken false = cronMessage tokenOrder byToken true)
    ∧ cronMessage ["USDC"] usdcByToken false
        = "🪙 *USDC*\n  • Binance: L: *35%* | B: 0%\n\n" := by
  constructor
  · intro tokenOrder byToken
    rfl
  · have hf : formatRate usdcBinance (threshD "USDC") = "  • Binance: L: *35%* | B: 0%" := by
      rw [formatRate_mid usdcBinance (threshD "USDC")
        (by show ¬ ((35:ℚ) ≥ 30 * 2); norm_num)
        (by show ((35:ℚ) ≥ 30); norm_num)]
      decide
    have hstep : cronMessage ["USDC"] usdcByToken false
        = String.join ["🪙 *" ++ "USDC" ++ "*\n"
            ++ String.join [formatRate usdcBinance (threshD "USDC") ++ "\n"] ++ "\n"] := rfl
    rw [hstep, hf]
    decide

/-- The two-token ratesByToken map of the C7 counterexample: USDT from
Bybit and TIA from OKX, both flagged. -/
def twoTokenMap : String → List Rate :=
  fun t => if t = "USDT" then [usdt40] else if t = "TIA" then [tia35] else []

/-- Claim C7 counterexample: the timer-cycle renderer walks the token map
in Go map range order, which the language leaves unspecified; the two
legal enumeration orders of the keys USDT and TIA produce different
texts, so the rendered text is not a function of the map alone and the
token blocks do not always appear in lexicographic order. -/
theorem cron_rendering_depends_on_token_order :
    cronMessage ["USDT", "TIA"] twoTokenMap true
      ≠ cronMessage ["TIA", "USDT"] twoTokenMap true := by
  have hf1 : formatRate usdt40 (threshD "USDT") = "  • Bybit: L: *40%* | B: 0%" := by
    rw [formatRate_mid usdt40 (threshD "USDT")
      (by show ¬ ((40:ℚ) ≥ 30 * 2); norm_num)
      (by show ((40:ℚ) ≥ 30); norm_num)]
    decide
  have hf2 : formatRate tia35 (threshD "TIA") = "  • OKX: L: *35%* | B: 0%" := by
    rw [formatRate_mid tia35 (threshD "TIA")
      (by show ¬ ((35:ℚ) ≥ 30 * 2); norm_num)
      (by show ((35:ℚ) ≥ 30); norm_num)]
    decide
  have h1 : cronMessage ["USDT", "TIA"] twoTokenMap true
      = String.join
          ["🪙 *" ++ "USDT" ++ "*\n"
              ++ String.join [formatRate usdt40 (threshD "USDT") ++ "\n"] ++ "\n",
           "🪙 *" ++ "TIA" ++ "*\n"
              ++ String.join [formatRate tia35 (threshD "TIA") ++ "\n"] ++ "\n"] := rfl
  have h2 : cronMessage ["TIA", "USDT"] twoTokenMap true
      = String.join
          ["🪙 *" ++ "TIA" ++ "*\n"
              ++ String.join [formatRate tia35 (threshD "TIA") ++ "\n"] ++ "\n",
           "🪙 *" ++ "USDT" ++ "*\n"
              ++ String.join [formatRate usdt40 (threshD "USDT") ++ "\n"] ++ "\n"] := rfl
  rw [h1, h2, hf1, hf2]
  decide

/-- Claim C7 as amended: the on-demand all-token rendering is fully
deterministic — token blocks appear in lexicographic token order and each
block lists its source lines in lexicographic source order — and within a
token block the timer-cycle renderer also sorts its lines by source;
formatting the same data twice yields identical text. Only the order of
the token blocks of the timer-cycle message is left to Go map range
order. -/
theorem formatting_sorted_and_deterministic (allRates : List Rate) :
    List.Pairwise (fun a b : String × List Rate => strLe a.1 b.1 = true)
      (rateAllBlocks allRates)
    ∧ (rateAllBlocks allRates).Forall
        (fun b => b.2.Pairwise (fun r1 r2 : Rate => strLe r1.source r2.source = true))
    ∧ (∀ (byToken : String → List Rate) (token : String),
        (sortBy rateLe (byToken token)).Pairwise
          (fun r1 r2 : Rate => strLe r1.source r2.source = true))
    ∧ rateAllMessage allRates = rateAllMessage allRates := by
  have hRateTot : ∀ a b : Rate, rateLe a b = true ∨ rateLe b a = true :=
    fun a b => strLe_total a.source b.source
  have hRateTrans : ∀ a b c : Rate,
      rateLe a b = true → rateLe b c = true → rateLe a c = true :=
    fun a b c => strLe_trans a.source b.source c.source
  refine ⟨?_, ?_, ?_, rfl⟩
  · unfold rateAllBlocks
    rw [List.pairwise_map]
    exact sortBy_pairwise strLe strLe_total strLe_trans _
  · rw [List.forall_iff_forall_mem]
    intro b hb
    unfold rateAllBlocks at hb
    rcases List.mem_map.mp hb with ⟨token, -, hbeq⟩
    rw [← hbeq]
    exact sortBy_pairwise rateLe hRateTot hRateTrans _
  · intro byToken token
    exact sortBy_pairwise rateLe hRateTot hRateTrans _

/-! Analysis lemmas for the APR to APY conversion. -/

/-- Strict Bernoulli inequality over the rationals: for x above -1 and
nonzero, (1 + x)^m exceeds 1 + m x from the second power on. -/
lemma bernoulli_strict (x : ℚ) (hx1 : -1 < x) (hx0 : x ≠ 0) :
    ∀ m : ℕ, 2 ≤ m → 1 + (m : ℚ) * x < (1 + x) ^ m := by
  intro m hm
  induction m, hm using Nat.le_induction with
  | base =>
      have hx2 : 0 < x ^ 2 := by positivity
      have : ((2:ℕ) : ℚ) = 2 := by norm_num
      rw [this]
      nlinarith
  | succ k hk ih =>
      have hx1p : 0 < 1 + x := by linarith
      have hknn : (0:ℚ) ≤ (k : ℚ) := Nat.cast_nonneg k
      have hstep : 1 + ((k + 1 : ℕ) : ℚ) * x ≤ (1 + (k : ℚ) * x) * (1 + x) := by
        push_cast
        nlinarith [mul_nonneg hknn (sq_nonneg x)]
      calc 1 + ((k + 1 : ℕ) : ℚ) * x
          ≤ (1 + (k : ℚ) * x) * (1 + x) := hstep
        _ < (1 + x) ^ k * (1 + x) := mul_lt_mul_of_pos_right ih hx1p
        _ = (1 + x) ^ (k + 1) := (pow_succ _ _).symm

/-- One compounding step strictly increases the compound growth factor:
with a positive simple rate a and at least one period, (1 + a/n)^n is
below (1 + a/(n+1))^(n+1). -/
lemma compound_lt_succ (a : ℚ) (ha : 0 < a) (n : ℕ) (hn : 1 ≤ n) :
    (1 + a / (n : ℚ)) ^ n < (1 + a / ((n : ℚ) + 1)) ^ (n + 1) := by
  have hN : (0:ℚ) < (n : ℚ) := by exact_mod_cast Nat.lt_of_lt_of_le Nat.zero_lt_one hn
  set N : ℚ := (n : ℚ) with hNdef
  have hNa : 0 < N + a := by linarith
  have hN1 : 0 < N + 1 := by linarith
  have hden : 0 < (N + 1) * (N + a) := mul_pos hN1 hNa
  set d : ℚ := a / ((N + 1) * (N + a)) with hddef
  have hd0 : 0 < d := div_pos ha hden
  have hd1 : d < 1 := by
    rw [hddef, div_lt_one hden]
    nlinarith
  have hy0 : 0 < 1 + a / N := by positivity
  have hyne : (1 : ℚ) + a / N ≠ 0 := ne_of_gt hy0
  have hNne : N ≠ 0 := ne_of_gt hN
  have hN1ne : N + 1 ≠ 0 := ne_of_gt hN1
  have hNane : N + a ≠ 0 := ne_of_gt hNa
  have hb : 1 + ((n + 1 : ℕ) : ℚ) * (-d) < (1 + (-d)) ^ (n + 1) :=
    bernoulli_strict (-d) (by linarith) (by intro h; exact ne_of_gt hd0 (by linarith [neg_eq_zero.mp h]))
      (n + 1) (by omega)
  have key1 : (1 : ℚ) + (-d) = (1 + a / (N + 1)) / (1 + a / N) := by
    rw [hddef]
    field_simp
    ring
  have key2 : (1 : ℚ) + ((n + 1 : ℕ) : ℚ) * (-d) = 1 / (1 + a / N) := by
    have hcast : ((n + 1 : ℕ) : ℚ) = N + 1 := by
      rw [hNdef]; push_cast; ring
    rw [hddef, hcast]
    field_simp
    ring
  rw [key1, key2, div_pow] at hb
  have hypow : 0 < (1 + a / N) ^ (n + 1) := pow_pos hy0 _
  rw [div_lt_div_iff₀ hy0 hypow] at hb
  have hsucc : (1 + a / N) ^ (n + 1) = (1 + a / N) ^ n * (1 + a / N) := pow_succ _ _
  rw [hsucc] at hb
  have := lt_of_mul_lt_mul_right (by linarith : (1 + a / N) ^ n * (1 + a / N)
      < (1 + a / (N + 1)) ^ (n + 1) * (1 + a / N)) (le_of_lt hy0)
  exact this

/-- Claim C9: the APR to APY conversion sends zero to zero for every
number of compounding periods, is the identity at one period, and for a
positive simple rate is strictly increasing in the number of periods. -/
theorem convertAPRtoAPY_spec :
    (∀ n : ℕ, convertAPRtoAPY 0 n = 0)
    ∧ (∀ apr : ℚ, convertAPRtoAPY apr 1 = apr)
    ∧ (∀ apr : ℚ, 0 < apr → StrictMono (fun n : ℕ => convertAPRtoAPY apr n)) := by
  refine ⟨?_, ?_, ?_⟩
  · intro n
    simp [convertAPRtoAPY]
  · intro apr
    simp [convertAPRtoAPY]
  · intro apr ha
    have ha100 : 0 < apr / 100 := by positivity
    apply strictMono_nat_of_lt_succ
    intro n
    have key : (1 + (apr / 100) / (n : ℚ)) ^ n
        < (1 + (apr / 100) / ((n : ℚ) + 1)) ^ (n + 1) := by
      rcases Nat.eq_zero_or_pos n with h0 | hpos
      · subst h0
        simp only [Nat.cast_zero, div_zero, add_zero, pow_zero, zero_add, pow_one, div_one]
        linarith
      · exact compound_lt_succ (apr / 100) ha100 n hpos
    have hcast : ((n + 1 : ℕ) : ℚ) = (n : ℚ) + 1 := by push_cast; ring
    unfold convertAPRtoAPY
    simp only [hcast]
    nlinarith [key]

/-- Witness for C9 at concrete inputs: zero APR converts to zero at 365
periods, a 7 percent APR is unchanged at one period, and a 10 percent APR
grows strictly from one to two periods. -/
theorem convertAPRtoAPY_spec_witness :
    convertAPRtoAPY 0 365 = 0
    ∧ convertAPRtoAPY 7 1 = 7
    ∧ convertAPRtoAPY 10 1 < convertAPRtoAPY 10 2 := by
  refine ⟨convertAPRtoAPY_spec.1 365, convertAPRtoAPY_spec.2.1 7, ?_⟩
  exact convertAPRtoAPY_spec.2.2 10 (by norm_num) (by norm_num : (1:ℕ) < 2)

end InterestBot
